import Mathlib

/-!
Verification of the smart_socket protocol stack
(repository smart_home_workspace, crates smart_socket_server and
smart_socket_client).

Byte streams are modelled as List Nat (each element one byte), Rust String
values as their UTF-8 byte lists or, for the pure text grammar, as List Char.
Machine integers are Nat with explicit reduction modulo 2 ^ 32 where the Rust
code casts to u32.
-/

/-- One byte is a UTF-8 continuation byte (0x80 ..= 0xBF). -/
def isCont (b : Nat) : Bool := 128 ≤ b && b ≤ 191

/-- Admissible second byte of a 3-byte UTF-8 sequence led by b0
(rejects overlong encodings and surrogate code points, as Rust std does). -/
def utf8Snd3 (b0 b1 : Nat) : Bool :=
  if b0 = 224 then 160 ≤ b1 && b1 ≤ 191
  else if b0 = 237 then 128 ≤ b1 && b1 ≤ 159
  else isCont b1

/-- Admissible second byte of a 4-byte UTF-8 sequence led by b0
(rejects overlong encodings and code points above U+10FFFF). -/
def utf8Snd4 (b0 b1 : Nat) : Bool :=
  if b0 = 240 then 144 ≤ b1 && b1 ≤ 191
  else if b0 = 244 then 128 ≤ b1 && b1 ≤ 143
  else isCont b1

/-- Decode one UTF-8 scalar value from the front of a byte list, returning
the code point and the number of bytes consumed, or none when the prefix is
not a well-formed sequence (model of the per-character step of Rust std
UTF-8 validation). -/
def utf8Step : List Nat → Option (Nat × Nat)
  | [] => none
  | b0 :: rest =>
    if b0 < 128 then some (b0, 1)
    else if b0 < 194 then none
    else if b0 < 224 then
      match rest with
      | b1 :: _ => if isCont b1 then some ((b0 - 192) * 64 + (b1 - 128), 2) else none
      | [] => none
    else if b0 < 240 then
      match rest with
      | b1 :: b2 :: _ =>
        if utf8Snd3 b0 b1 && isCont b2 then
          some (((b0 - 224) * 64 + (b1 - 128)) * 64 + (b2 - 128), 3)
        else none
      | _ => none
    else if b0 < 245 then
      match rest with
      | b1 :: b2 :: b3 :: _ =>
        if utf8Snd4 b0 b1 && isCont b2 && isCont b3 then
          some ((((b0 - 240) * 64 + (b1 - 128)) * 64 + (b2 - 128)) * 64 + (b3 - 128), 4)
        else none
      | _ => none
    else none

/-- Length of the maximal subpart of an ill-formed sequence at the front of
the list (the number of bytes Rust from_utf8_lossy replaces with one
U+FFFD, per the WHATWG substitution rule). -/
def utf8ErrLen : List Nat → Nat
  | [] => 1
  | [_] => 1
  | b0 :: b1 :: rest =>
    if 224 ≤ b0 && b0 < 240 then
      if utf8Snd3 b0 b1 then 2 else 1
    else if 240 ≤ b0 && b0 < 245 then
      if utf8Snd4 b0 b1 then
        match rest with
        | b2 :: _ => if isCont b2 then 3 else 2
        | [] => 2
      else 1
    else 1

/-- Fuel-driven worker for utf8Lossy; fuel bounds the number of decoded
characters and is instantiated with the byte count, which always suffices
because every step consumes at least one byte. -/
def utf8LossyAux : Nat → List Nat → List Char
  | _, [] => []
  | 0, _ :: _ => []
  | f + 1, b0 :: rest =>
    match utf8Step (b0 :: rest) with
    | some (cp, k) => Char.ofNat cp :: utf8LossyAux f ((b0 :: rest).drop k)
    | none => Char.ofNat 65533 :: utf8LossyAux f ((b0 :: rest).drop (utf8ErrLen (b0 :: rest)))

/-- Model of Rust String::from_utf8_lossy on a byte list. -/
def utf8Lossy (s : List Nat) : List Char := utf8LossyAux s.length s

/-- Fuel-driven worker for utf8Valid. -/
def utf8ValidAux : Nat → List Nat → Bool
  | _, [] => true
  | 0, _ :: _ => false
  | f + 1, b0 :: rest =>
    match utf8Step (b0 :: rest) with
    | some (_, k) => utf8ValidAux f ((b0 :: rest).drop k)
    | none => false

/-- Model of Rust String::from_utf8 validity (the whole byte list is
well-formed UTF-8). -/
def utf8Valid (s : List Nat) : Bool := utf8ValidAux s.length s

/-- UTF-8 encoding of one Unicode scalar value. -/
def utf8EncodeChar (n : Nat) : List Nat :=
  if n < 128 then [n]
  else if n < 2048 then [192 + n / 64, 128 + n % 64]
  else if n < 65536 then [224 + n / 4096, 128 + n / 64 % 64, 128 + n % 64]
  else [240 + n / 262144, 128 + n / 4096 % 64, 128 + n / 64 % 64, 128 + n % 64]

/-- UTF-8 byte list of a character list (model of Rust str::as_bytes). -/
def utf8EncodeStr (s : List Char) : List Nat :=
  (s.map (fun c => utf8EncodeChar c.toNat)).flatten

/-- Big-endian 4-byte representation of a u32 value
(model of u32::to_be_bytes). -/
def beBytes4 (n : Nat) : List Nat :=
  [n / 16777216 % 256, n / 65536 % 256, n / 256 % 256, n % 256]

/-- Embedding of smart_socket_server lib.rs serialize_message: a 4-byte
big-endian length prefix (the byte length cast to u32, hence reduced
modulo 2 ^ 32) followed by the message bytes. -/
def serialize_message (m : List Nat) : List Nat :=
  beBytes4 (m.length % 4294967296) ++ m

/-- Protocol-level failure kinds, embedding of enum ProtocolError in
lib.rs. Variants that carry input-derived text carry it as List Char;
the fixed diagnostic details stay String literals. -/
inductive ProtocolError where
  | InvalidCommand (raw : List Char)
  | InvalidResponse (raw : List Char)
  | ConnectionError (detail : String)
  | ParseError (detail : String)
deriving DecidableEq

/-- Embedding of lib.rs read_message on a finite byte stream: read exactly
4 bytes, interpret them as a big-endian length, read exactly that many body
bytes, and require the body to be valid UTF-8.  Returns the message bytes
together with the unconsumed remainder of the stream; a stream too short to
complete the frame is the model of read_exact failing. -/
def read_message (s : List Nat) : Except ProtocolError (List Nat × List Nat) :=
  match s with
  | b0 :: b1 :: b2 :: b3 :: rest =>
    let len := ((b0 * 256 + b1) * 256 + b2) * 256 + b3
    if len ≤ rest.length then
      if utf8Valid (rest.take len) then .ok (rest.take len, rest.drop len)
      else .error (.ParseError "Invalid UTF-8")
    else .error (.ConnectionError "Failed to read message")
  | _ => .error (.ConnectionError "Failed to read message length")

/-- Embedding of enum Command in lib.rs. -/
inductive Command where
  | TurnOn
  | TurnOff
  | GetStatus
  | GetInfo
deriving DecidableEq

/-- Embedding of enum Response in lib.rs.  The u32 power field is carried
as a Nat; the u32 range shows up as an explicit bound where it matters. -/
inductive Response where
  | Ok (msg : List Char)
  | Status (is_on : Bool) (power : Nat)
  | Info (info : List Char)
  | Error (err : List Char)
deriving DecidableEq

/-- Characters with the Unicode White_Space property, the set removed by
Rust str::trim via char::is_whitespace. -/
def isRustWhitespace (c : Char) : Bool :=
  let n := c.toNat
  (9 ≤ n && n ≤ 13) || n == 32 || n == 133 || n == 160 || n == 5760 ||
  (8192 ≤ n && n ≤ 8202) || n == 8232 || n == 8233 || n == 8239 || n == 8287 || n == 12288

/-- Model of Rust str::trim: remove leading and trailing whitespace. -/
def rustTrim (s : List Char) : List Char :=
  ((s.dropWhile isRustWhitespace).reverse.dropWhile isRustWhitespace).reverse

/-- Embedding of the Display impl for Command in lib.rs. -/
def Command.render : Command → List Char
  | .TurnOn => "ON".toList
  | .TurnOff => "OFF".toList
  | .GetStatus => "STATUS".toList
  | .GetInfo => "INFO".toList

/-- Embedding of the FromStr impl for Command in lib.rs: trim, then match
the four exact spellings; otherwise InvalidCommand carrying the value that
was matched, i.e. the trimmed text. -/
def Command.from_str (s : List Char) : Except ProtocolError Command :=
  if rustTrim s = "ON".toList then .ok .TurnOn
  else if rustTrim s = "OFF".toList then .ok .TurnOff
  else if rustTrim s = "STATUS".toList then .ok .GetStatus
  else if rustTrim s = "INFO".toList then .ok .GetInfo
  else .error (.InvalidCommand (rustTrim s))

/-- Split a character list at the first occurrence of c, returning the two
sides, or none when c does not occur. -/
def splitFirst (c : Char) : List Char → Option (List Char × List Char)
  | [] => none
  | a :: rest =>
    if a = c then some ([], rest)
    else (splitFirst c rest).map (fun p => (a :: p.1, p.2))

/-- Model of Rust str::splitn(2, c): at most two parts, the second part
kept verbatim; an input without the separator gives one part, and the
empty input gives one empty part. -/
def splitn2 (c : Char) (s : List Char) : List (List Char) :=
  match splitFirst c s with
  | none => [s]
  | some (l, r) => [l, r]

/-- Accumulator worker for splitAll. -/
def splitAllAux (c : Char) : List Char → List Char → List (List Char)
  | [], acc => [acc.reverse]
  | a :: rest, acc =>
    if a = c then acc.reverse :: splitAllAux c rest []
    else splitAllAux c rest (a :: acc)

/-- Model of Rust str::split(c): every separator splits, and the empty
input gives one empty part. -/
def splitAll (c : Char) (s : List Char) : List (List Char) := splitAllAux c s []

/-- Decimal digit character for a value below ten. -/
def digitChar (d : Nat) : Char :=
  match d with
  | 0 => '0'
  | 1 => '1'
  | 2 => '2'
  | 3 => '3'
  | 4 => '4'
  | 5 => '5'
  | 6 => '6'
  | 7 => '7'
  | 8 => '8'
  | _ => '9'

/-- Numeric value of a decimal digit character, or none. -/
def digitVal (c : Char) : Option Nat :=
  if 48 ≤ c.toNat && c.toNat ≤ 57 then some (c.toNat - 48) else none

/-- Left fold of decimal digits onto an accumulator; none at the first
non-digit character. -/
def digitsValAux : Nat → List Char → Option Nat
  | acc, [] => some acc
  | acc, c :: rest =>
    match digitVal c with
    | some d => digitsValAux (acc * 10 + d) rest
    | none => none

/-- Value of a non-empty all-digit character list, or none. -/
def digitsVal (s : List Char) : Option Nat :=
  if s = [] then none else digitsValAux 0 s

/-- Remove one leading plus sign if present (Rust unsigned integer parsing
accepts a single leading plus). -/
def stripPlus (s : List Char) : List Char :=
  match s with
  | c :: r => if c = '+' then r else s
  | [] => s

/-- Model of Rust str::parse::<u32>: an optional leading plus, then one or
more decimal digits, failing on anything else and on values that overflow
u32.  Checked accumulation in Rust fails exactly when the final value
exceeds u32::MAX, since the Nat accumulator only grows. -/
def parseU32 (s : List Char) : Option Nat :=
  match digitsVal (stripPlus s) with
  | some v => if v < 4294967296 then some v else none
  | none => none

/-- Fuel-driven worker for natToDigits; the fuel is instantiated with a
bound on the number of digits so the recursion stays structural (and hence
kernel-reducible). -/
def natToDigitsAux : Nat → Nat → List Char
  | 0, _ => []
  | f + 1, n =>
    if n < 10 then [digitChar n]
    else natToDigitsAux f (n / 10) ++ [digitChar (n % 10)]

/-- Decimal digit list of a Nat (model of the Display formatting used for
the u32 power field). -/
def natToDigits (n : Nat) : List Char := natToDigitsAux (n + 1) n

/-- Embedding of the FromStr impl for Response in lib.rs: split once on
the first colon to get a tag, dispatch on the tag; the STATUS remainder is
split again on every colon, the first token compared against ON and the
second parsed as u32. -/
def Response.from_str (s : List Char) : Except ProtocolError Response :=
  match splitn2 ':' s with
  | [] => .error (.ParseError "Empty response")
  | tag :: rest =>
    if tag = "OK".toList then
      match rest.head? with
      | none => .error (.ParseError "Missing OK message")
      | some m => .ok (.Ok m)
    else if tag = "STATUS".toList then
      match rest.head? with
      | none => .error (.ParseError "Missing status data")
      | some data =>
        match splitAll ':' data with
        | [] => .error (.ParseError "Missing status state")
        | st :: more =>
          match more.head? with
          | none => .error (.ParseError "Missing power value")
          | some ptok =>
            match parseU32 ptok with
            | none => .error (.ParseError "Invalid power value")
            | some p => .ok (.Status (decide (st = "ON".toList)) p)
    else if tag = "INFO".toList then
      match rest.head? with
      | none => .error (.ParseError "Missing info message")
      | some m => .ok (.Info m)
    else if tag = "ERROR".toList then
      match rest.head? with
      | none => .error (.ParseError "Missing error message")
      | some m => .ok (.Error m)
    else .error (.InvalidResponse tag)

/-- Embedding of the Display impl for Response in lib.rs. -/
def Response.render : Response → List Char
  | .Ok msg => "OK:".toList ++ msg
  | .Status is_on power =>
      "STATUS:".toList ++ (if is_on then "ON".toList else "OFF".toList) ++
        ":".toList ++ natToDigits power
  | .Info info => "INFO:".toList ++ info
  | .Error err => "ERROR:".toList ++ err

/-- Embedding of the Display impl for ProtocolError in lib.rs. -/
def errDisplay : ProtocolError → List Char
  | .InvalidCommand raw => "Invalid command: ".toList ++ raw
  | .InvalidResponse raw => "Invalid response: ".toList ++ raw
  | .ConnectionError d => "Connection error: ".toList ++ d.toList
  | .ParseError d => "Parse error: ".toList ++ d.toList

/-- Modelled from the spec: the device capability interface of the external
smart_home crate (not under src/), per spec section 6: turn_on, turn_off,
is_on, get_power, description over an opaque device state. -/
structure DeviceOps (σ : Type) where
  turn_on : σ → σ
  turn_off : σ → σ
  is_on : σ → Bool
  get_power : σ → Nat
  description : σ → List Char

/-- Embedding of handle_client in smart_socket_server main.rs.  The input
is the sequence of byte chunks successive stream.read calls return (an
empty chunk is the zero-length read of a closed peer).  Each chunk is
decoded with from_utf8_lossy and parsed as a whole as a Command - there is
no frame decoding; the response is rendered and written as raw UTF-8
bytes - there is no frame encoding.  Returns all bytes written and the
final device state; the mutex serialization of device access appears as
sequential threading of the state. -/
def handleClient {σ : Type} (ops : DeviceOps σ) (dev : σ) :
    List (List Nat) → List Nat × σ
  | [] => ([], dev)
  | chunk :: rest =>
    if chunk.length = 0 then ([], dev)
    else
      let next :=
        match Command.from_str (utf8Lossy chunk) with
        | .ok .TurnOn => (ops.turn_on dev, Response.Ok "Socket turned on".toList)
        | .ok .TurnOff => (ops.turn_off dev, Response.Ok "Socket turned off".toList)
        | .ok .GetStatus => (dev, Response.Status (ops.is_on dev) (ops.get_power dev))
        | .ok .GetInfo => (dev, Response.Info (ops.description dev))
        | .error e => (dev, Response.Error (errDisplay e))
      let tail := handleClient ops next.1 rest
      (utf8EncodeStr (Response.render next.2) ++ tail.1, tail.2)

/-- Concrete device instance for witnesses: state is the on flag, power
and description are the values main.rs configures (3500, Kitchen Socket).
Modelled from the spec: stands in for the external smart_home Socket. -/
def demoOps : DeviceOps Bool where
  turn_on := fun _ => true
  turn_off := fun _ => false
  is_on := fun b => b
  get_power := fun _ => 3500
  description := fun _ => "Kitchen Socket".toList

/-- One outcome of an accept attempt in the supervisor loop of main.rs:
a new connection (tagged by an identifier), a WouldBlock timeout, or some
other accept error. -/
inductive AcceptEv where
  | conn (id : Nat)
  | wouldBlock
  | fail
deriving DecidableEq

/-- Worker for supervise, accumulating the spawned handler identifiers in
order. -/
def superviseAux (spawned : List Nat) : List (Bool × AcceptEv) → List Nat × List Nat
  | [] => (spawned, spawned)
  | (flag, ev) :: rest =>
    if flag then
      match ev with
      | .conn id => superviseAux (spawned ++ [id]) rest
      | .wouldBlock => superviseAux spawned rest
      | .fail => superviseAux spawned rest
    else (spawned, spawned)

/-- Embedding of the supervisor loop in smart_socket_server main.rs.  The
input is the trace of loop iterations, each recording the value the
shutdown flag load observed and what listener.accept returned; the loop
spawns a handler per accepted connection while the flag is true, exits at
the first false observation (or at the end of the trace), and then joins
the spawned handlers.  Returns (spawned handlers, joined handlers), in
order. -/
def supervise (evs : List (Bool × AcceptEv)) : List Nat × List Nat :=
  superviseAux [] evs

/-- The connection identifiers accepted in a trace. -/
def acceptedOf (evs : List (Bool × AcceptEv)) : List Nat :=
  evs.filterMap (fun p =>
    match p.2 with
    | .conn id => some id
    | _ => none)

/-- The side condition of the Response round-trip claim: payload strings
contain no colon; for Status the power value fits in u32 (its Rust type). -/
def wfNoColon : Response → Bool
  | .Ok msg => !(msg.contains ':')
  | .Status _ power => decide (power < 4294967296)
  | .Info info => !(info.contains ':')
  | .Error err => !(err.contains ':')

deriving instance DecidableEq for Except

theorem splitFirst_not_mem {c : Char} : ∀ {s : List Char}, c ∉ s → splitFirst c s = none := by
  intro s
  induction s with
  | nil => intro _; rfl
  | cons a rest ih =>
    intro h
    have ha : ¬ a = c := fun e => h (by simp [e])
    have hr : c ∉ rest := fun e => h (by simp [e])
    simp [splitFirst, ha, ih hr]

theorem splitFirst_append {c : Char} :
    ∀ (l r : List Char), c ∉ l → splitFirst c (l ++ c :: r) = some (l, r) := by
  intro l
  induction l with
  | nil => intro r _; simp [splitFirst]
  | cons a rest ih =>
    intro r h
    have ha : ¬ a = c := fun e => h (by simp [e])
    have hr : c ∉ rest := fun e => h (by simp [e])
    simp [splitFirst, ha, ih r hr]

theorem splitn2_not_mem {c : Char} {s : List Char} (h : c ∉ s) : splitn2 c s = [s] := by
  simp [splitn2, splitFirst_not_mem h]

theorem splitn2_append {c : Char} (l r : List Char) (h : c ∉ l) :
    splitn2 c (l ++ c :: r) = [l, r] := by
  simp [splitn2, splitFirst_append l r h]

theorem splitAllAux_not_mem {c : Char} :
    ∀ {s : List Char} (acc : List Char), c ∉ s → splitAllAux c s acc = [acc.reverse ++ s] := by
  intro s
  induction s with
  | nil => intro acc _; simp [splitAllAux]
  | cons a rest ih =>
    intro acc h
    have ha : ¬ a = c := fun e => h (by simp [e])
    have hr : c ∉ rest := fun e => h (by simp [e])
    simp [splitAllAux, ha, ih (a :: acc) hr]

theorem splitAllAux_append {c : Char} :
    ∀ (l : List Char) (acc r : List Char), c ∉ l →
      splitAllAux c (l ++ c :: r) acc = (acc.reverse ++ l) :: splitAllAux c r [] := by
  intro l
  induction l with
  | nil => intro acc r _; simp [splitAllAux]
  | cons a rest ih =>
    intro acc r h
    have ha : ¬ a = c := fun e => h (by simp [e])
    have hr : c ∉ rest := fun e => h (by simp [e])
    simp [splitAllAux, ha, ih (a :: acc) r hr]

theorem splitAll_not_mem {c : Char} {s : List Char} (h : c ∉ s) : splitAll c s = [s] := by
  simpa [splitAll] using splitAllAux_not_mem [] h

theorem splitAll_append {c : Char} (l r : List Char) (h : c ∉ l) :
    splitAll c (l ++ c :: r) = l :: splitAll c r := by
  simpa [splitAll] using splitAllAux_append l [] r h

theorem splitAllAux_ne_nil {c : Char} :
    ∀ (s acc : List Char), splitAllAux c s acc ≠ [] := by
  intro s
  induction s with
  | nil => intro acc; simp [splitAllAux]
  | cons a rest ih =>
    intro acc
    by_cases ha : a = c
    · simp [splitAllAux, ha]
    · simp [splitAllAux, ha, ih (a :: acc)]

theorem splitAll_ne_nil {c : Char} (s : List Char) : splitAll c s ≠ [] :=
  splitAllAux_ne_nil s []

theorem digitVal_digitChar {d : Nat} (h : d < 10) : digitVal (digitChar d) = some d := by
  interval_cases d <;> decide

theorem digitChar_ne_plus {d : Nat} (h : d < 10) : digitChar d ≠ '+' := by
  interval_cases d <;> decide

theorem digitChar_ne_colon {d : Nat} (h : d < 10) : digitChar d ≠ ':' := by
  interval_cases d <;> decide

theorem digitsValAux_append :
    ∀ (xs ys : List Char) (acc : Nat),
      digitsValAux acc (xs ++ ys) =
        match digitsValAux acc xs with
        | some v => digitsValAux v ys
        | none => none := by
  intro xs
  induction xs with
  | nil => intro ys acc; simp [digitsValAux]
  | cons x rest ih =>
    intro ys acc
    cases hx : digitVal x with
    | none => simp [digitsValAux, hx]
    | some d => simp [digitsValAux, hx, ih]

theorem natToDigitsAux_mem :
    ∀ (f n : Nat), n < f → ∀ c, c ∈ natToDigitsAux f n → ∃ d, d < 10 ∧ c = digitChar d := by
  intro f
  induction f with
  | zero => intro n hn; omega
  | succ f ih =>
    intro n hn c hc
    by_cases h : n < 10
    · simp [natToDigitsAux, h] at hc
      exact ⟨n, h, hc⟩
    · simp [natToDigitsAux, h] at hc
      rcases hc with hc | hc
      · have hlt : n / 10 < f := by
          have := Nat.div_lt_self (show 0 < n by omega) (show 1 < 10 by omega)
          omega
        exact ih (n / 10) hlt c hc
      · exact ⟨n % 10, Nat.mod_lt n (by omega), hc⟩

theorem natToDigits_mem :
    ∀ (n : Nat) (c : Char), c ∈ natToDigits n → ∃ d, d < 10 ∧ c = digitChar d :=
  fun n => natToDigitsAux_mem (n + 1) n (Nat.lt_succ_self n)

theorem natToDigits_ne_nil (n : Nat) : natToDigits n ≠ [] := by
  by_cases h : n < 10 <;> simp [natToDigits, natToDigitsAux, h]

theorem natToDigitsAux_head :
    ∀ (f n : Nat), n < f → ∃ d r, d < 10 ∧ natToDigitsAux f n = digitChar d :: r := by
  intro f
  induction f with
  | zero => intro n hn; omega
  | succ f ih =>
    intro n hn
    by_cases h : n < 10
    · exact ⟨n, [], h, by simp [natToDigitsAux, h]⟩
    · have hlt : n / 10 < f := by
        have := Nat.div_lt_self (show 0 < n by omega) (show 1 < 10 by omega)
        omega
      rcases ih (n / 10) hlt with ⟨d, r, hd, hr⟩
      exact ⟨d, r ++ [digitChar (n % 10)], hd, by simp [natToDigitsAux, h, hr]⟩

theorem natToDigits_head (n : Nat) : ∃ d r, d < 10 ∧ natToDigits n = digitChar d :: r :=
  natToDigitsAux_head (n + 1) n (Nat.lt_succ_self n)

theorem natToDigitsAux_val :
    ∀ (f n : Nat), n < f → ∀ acc,
      digitsValAux acc (natToDigitsAux f n) =
        some (acc * 10 ^ (natToDigitsAux f n).length + n) := by
  intro f
  induction f with
  | zero => intro n hn; omega
  | succ f ih =>
    intro n hn acc
    by_cases h : n < 10
    · simp [natToDigitsAux, h, digitsValAux, digitVal_digitChar h]
    · have hlt : n / 10 < f := by
        have := Nat.div_lt_self (show 0 < n by omega) (show 1 < 10 by omega)
        omega
      have hmod : n % 10 < 10 := Nat.mod_lt n (by omega)
      simp only [natToDigitsAux, h, if_false, digitsValAux_append, ih (n / 10) hlt acc]
      simp [digitsValAux, digitVal_digitChar hmod, List.length_append, pow_succ]
      ring_nf
      omega

theorem natToDigits_val (n acc : Nat) :
    digitsValAux acc (natToDigits n) = some (acc * 10 ^ (natToDigits n).length + n) :=
  natToDigitsAux_val (n + 1) n (Nat.lt_succ_self n) acc

theorem digitsVal_natToDigits (n : Nat) : digitsVal (natToDigits n) = some n := by
  simp [digitsVal, natToDigits_ne_nil n, natToDigits_val n 0]

theorem parseU32_natToDigits {p : Nat} (h : p < 4294967296) :
    parseU32 (natToDigits p) = some p := by
  rcases natToDigits_head p with ⟨d, r, hd, hr⟩
  have hplus : stripPlus (natToDigits p) = natToDigits p := by
    rw [hr]
    simp [stripPlus, digitChar_ne_plus hd]
  simp [parseU32, hplus, digitsVal_natToDigits p, h]

theorem colon_not_mem_natToDigits (n : Nat) : ':' ∉ natToDigits n := by
  intro hc
  rcases natToDigits_mem n ':' hc with ⟨d, hd, he⟩
  exact digitChar_ne_colon hd he.symm

theorem utf8ValidAux_ascii :
    ∀ (f : Nat) (l : List Nat), l.length ≤ f → (∀ b ∈ l, b < 128) →
      utf8ValidAux f l = true := by
  intro f
  induction f with
  | zero =>
    intro l hl _
    cases l with
    | nil => rfl
    | cons b rest => simp at hl
  | succ f ih =>
    intro l hl hb
    cases l with
    | nil => rfl
    | cons b rest =>
      have hb0 : b < 128 := hb b (by simp)
      have hstep : utf8Step (b :: rest) = some (b, 1) := by
        simp [utf8Step, hb0]
      simp only [utf8ValidAux, hstep, List.drop_succ_cons, List.drop_zero]
      exact ih rest (by simpa using Nat.le_of_succ_le_succ hl)
        (fun x hx => hb x (by simp [hx]))

theorem utf8Valid_ascii {l : List Nat} (h : ∀ b ∈ l, b < 128) : utf8Valid l = true :=
  utf8ValidAux_ascii l.length l (Nat.le_refl _) h

theorem read_serialize (m rest : List Nat) (hv : utf8Valid m = true)
    (hl : m.length < 4294967296) :
    read_message (serialize_message m ++ rest) = .ok (m, rest) := by
  have hmod : m.length % 4294967296 = m.length := Nat.mod_eq_of_lt hl
  have hlen : ((m.length / 16777216 % 256 * 256 + m.length / 65536 % 256) * 256 +
      m.length / 256 % 256) * 256 + m.length % 256 = m.length := by omega
  simp only [serialize_message, beBytes4, hmod, List.cons_append, List.nil_append,
    read_message, hlen]
  rw [if_pos (by simp [List.length_append]), List.take_left, List.drop_left, if_pos hv]

/-- C1: the claim says handle_client obtains each incoming command payload
by decoding one 4-byte big-endian length-prefixed frame and writes each
response as one such frame.  The code does neither: given the single read
chunk serialize_message of the bytes of ON - a frame whose payload parses
as TurnOn - the handler treats the whole chunk, length prefix included, as
the command text, answers with an Error response instead of turning the
device on, and writes that response as raw bytes, not as a frame. -/
theorem handle_client_not_framed :
    Command.from_str (utf8Lossy [79, 78]) = .ok .TurnOn ∧
    handleClient demoOps false [serialize_message [79, 78]] =
      (utf8EncodeStr (Response.render (.Error ("Invalid command: ".toList ++
        utf8Lossy (serialize_message [79, 78])))), false) ∧
    (handleClient demoOps false [serialize_message [79, 78]]).1 ≠
      serialize_message (utf8EncodeStr (Response.render (.Error ("Invalid command: ".toList ++
        utf8Lossy (serialize_message [79, 78]))))) := by
  refine ⟨by decide, by decide, by decide⟩

theorem read_message_zero_prefix (rest : List Nat) :
    read_message (0 :: 0 :: 0 :: 0 :: rest) = .ok ([], rest) := by
  simp [read_message, utf8Valid, utf8ValidAux]

/-- C2 counterexample: the claim quantifies over every UTF-8 string, but
serialize_message truncates the byte length to u32; at a valid UTF-8
string of exactly 2 ^ 32 bytes the length prefix becomes 0 and decoding
the encoded stream returns the empty message, not the original. -/
theorem frame_roundtrip_u32_overflow :
    utf8Valid (List.replicate 4294967296 97) = true ∧
    read_message (serialize_message (List.replicate 4294967296 97)) =
      .ok ([], List.replicate 4294967296 97) ∧
    ([] : List Nat) ≠ List.replicate 4294967296 97 := by
  refine ⟨utf8Valid_ascii ?_, ?_, ?_⟩
  · intro b hb
    have := List.eq_of_mem_replicate hb
    omega
  · have hlen : (List.replicate 4294967296 (97 : Nat)).length = 4294967296 :=
      List.length_replicate _ _
    simp only [serialize_message, hlen, Nat.mod_self, beBytes4]
    norm_num
    exact read_message_zero_prefix _
  · intro h
    have hl := congrArg List.length h
    simp only [List.length_nil, List.length_replicate] at hl
    omega

/-- C2 (amended): frame-codec round trip for every UTF-8 string whose byte
length is below 2 ^ 32 (the range of the u32 length prefix), including the
empty string and strings with multi-byte UTF-8 sequences: decoding a
stream that contains exactly the encoding of m yields m and consumes the
whole stream. -/
theorem frame_roundtrip (m : List Nat) (hv : utf8Valid m = true)
    (hl : m.length < 4294967296) :
    read_message (serialize_message m) = .ok (m, []) := by
  simpa using read_serialize m [] hv hl

theorem frame_roundtrip_witness :
    utf8Valid [208, 159] = true ∧ utf8Valid [] = true ∧
    read_message (serialize_message [208, 159]) = .ok ([208, 159], []) ∧
    read_message (serialize_message []) = .ok ([], []) :=
  ⟨by decide, by decide, frame_roundtrip [208, 159] (by decide) (by decide),
    frame_roundtrip [] (by decide) (by decide)⟩

/-- C10: read_message consumes exactly one frame and no more: on a stream
holding the encoding of m followed by arbitrary trailing bytes it returns
m and leaves the trailing bytes unconsumed, the whole frame being exactly
4 + byte-length of m bytes; and the length prefix serialize_message wrote
is the big-endian 4-byte form of the byte count of m. -/
theorem read_message_one_frame (m rest : List Nat) (hv : utf8Valid m = true)
    (hl : m.length < 4294967296) :
    read_message (serialize_message m ++ rest) = .ok (m, rest) ∧
    (serialize_message m).length = 4 + m.length ∧
    (serialize_message m).take 4 = beBytes4 m.length := by
  refine ⟨read_serialize m rest hv hl, ?_, ?_⟩
  · simp [serialize_message, beBytes4, List.length_append]
    omega
  · simp [serialize_message, Nat.mod_eq_of_lt hl, beBytes4, List.take_succ_cons]

theorem read_message_one_frame_witness :
    utf8Valid [208, 159] = true ∧
    read_message (serialize_message [208, 159] ++ [1, 2, 3]) = .ok ([208, 159], [1, 2, 3]) :=
  ⟨by decide, (read_message_one_frame [208, 159] [1, 2, 3] (by decide) (by decide)).1⟩

/-- C5 counterexample: Response parsing of the empty string does not
produce ParseError of Empty response; splitn yields one empty part, so the
empty tag falls into the unknown-tag arm. -/
theorem response_parse_empty_counter :
    Response.from_str [] = .error (.InvalidResponse []) ∧
    ProtocolError.InvalidResponse [] ≠ ProtocolError.ParseError "Empty response" := by
  refine ⟨by decide, by decide⟩

/-- C5 (amended): Response parsing applied to the empty string fails with
InvalidResponse carrying the empty tag; the ParseError branch for Empty
response is unreachable because splitn always yields at least one part. -/
theorem response_parse_empty : Response.from_str [] = .error (.InvalidResponse []) := by
  decide

/-- C4 counterexample: on an input rejected after trimming, the error
carries the trimmed text, not the original untrimmed input as the claim
states. -/
theorem command_parse_carries_trimmed :
    Command.from_str " X ".toList = .error (.InvalidCommand "X".toList) ∧
    ProtocolError.InvalidCommand "X".toList ≠ .InvalidCommand " X ".toList := by
  refine ⟨by decide, by decide⟩

/-- C4 (amended): Command parsing trims surrounding whitespace and succeeds
exactly when the trimmed text is one of the four case-sensitive spellings
(each command is accepted exactly on its own rendering); on any other
input it fails with InvalidCommand carrying the trimmed input text. -/
theorem command_parse_characterization :
    ∀ s : List Char,
      (∀ c : Command, Command.from_str s = .ok c ↔ rustTrim s = Command.render c) ∧
      (rustTrim s ≠ "ON".toList → rustTrim s ≠ "OFF".toList → rustTrim s ≠ "STATUS".toList →
        rustTrim s ≠ "INFO".toList →
        Command.from_str s = .error (.InvalidCommand (rustTrim s))) := by
  intro s
  constructor
  · intro c
    cases c <;> simp only [Command.from_str, Command.render] <;>
      split_ifs <;> simp_all
  · intro h1 h2 h3 h4
    simp only [Command.from_str]
    rw [if_neg h1, if_neg h2, if_neg h3, if_neg h4]

theorem command_parse_characterization_witness :
    Command.from_str "  ON  ".toList = .ok .TurnOn ∧
    Command.from_str " BOGUS ".toList = .error (.InvalidCommand "BOGUS".toList) :=
  ⟨((command_parse_characterization "  ON  ".toList).1 .TurnOn).mpr (by decide),
    (command_parse_characterization " BOGUS ".toList).2 (by decide) (by decide)
      (by decide) (by decide)⟩

/-- C3: grammar round trip: for every Command c, parsing its rendering
yields c back; and for every Response whose string payloads contain no
colon (with the Status power in u32 range, its Rust type), parsing its
rendering yields the response back. -/
theorem grammar_roundtrip :
    (∀ c : Command, Command.from_str (Command.render c) = .ok c) ∧
    (∀ r : Response, wfNoColon r = true → Response.from_str (Response.render r) = .ok r) := by
  constructor
  · intro c
    cases c <;> decide
  · intro r h
    cases r with
    | Ok msg =>
      have e : Response.render (.Ok msg) = 'O' :: 'K' :: ':' :: msg := rfl
      have hs : splitn2 ':' ('O' :: 'K' :: ':' :: msg) = [['O', 'K'], msg] :=
        splitn2_append ['O', 'K'] msg (by decide)
      rw [e]
      simp only [Response.from_str, hs]
      simp
    | Status is_on power =>
      have hpow : power < 4294967296 := by
        simpa [wfNoColon] using h
      have hd := splitAll_not_mem (colon_not_mem_natToDigits power)
      have hval := parseU32_natToDigits hpow
      cases is_on
      · have e : Response.render (.Status false power) =
            'S' :: 'T' :: 'A' :: 'T' :: 'U' :: 'S' :: ':' ::
              ('O' :: 'F' :: 'F' :: ':' :: natToDigits power) := rfl
        have hs : splitn2 ':' ('S' :: 'T' :: 'A' :: 'T' :: 'U' :: 'S' :: ':' ::
            ('O' :: 'F' :: 'F' :: ':' :: natToDigits power)) =
            [['S', 'T', 'A', 'T', 'U', 'S'], 'O' :: 'F' :: 'F' :: ':' :: natToDigits power] :=
          splitn2_append ['S', 'T', 'A', 'T', 'U', 'S'] _ (by decide)
        have hsa : splitAll ':' ('O' :: 'F' :: 'F' :: ':' :: natToDigits power) =
            ['O', 'F', 'F'] :: splitAll ':' (natToDigits power) :=
          splitAll_append ['O', 'F', 'F'] (natToDigits power) (by decide)
        rw [e]
        simp only [Response.from_str, hs]
        simp
        rw [hsa, hd]
        simp [hval]
      · have e : Response.render (.Status true power) =
            'S' :: 'T' :: 'A' :: 'T' :: 'U' :: 'S' :: ':' ::
              ('O' :: 'N' :: ':' :: natToDigits power) := rfl
        have hs : splitn2 ':' ('S' :: 'T' :: 'A' :: 'T' :: 'U' :: 'S' :: ':' ::
            ('O' :: 'N' :: ':' :: natToDigits power)) =
            [['S', 'T', 'A', 'T', 'U', 'S'], 'O' :: 'N' :: ':' :: natToDigits power] :=
          splitn2_append ['S', 'T', 'A', 'T', 'U', 'S'] _ (by decide)
        have hsa : splitAll ':' ('O' :: 'N' :: ':' :: natToDigits power) =
            ['O', 'N'] :: splitAll ':' (natToDigits power) :=
          splitAll_append ['O', 'N'] (natToDigits power) (by decide)
        rw [e]
        simp only [Response.from_str, hs]
        simp
        rw [hsa, hd]
        simp [hval]
    | Info info =>
      have e : Response.render (.Info info) = 'I' :: 'N' :: 'F' :: 'O' :: ':' :: info := rfl
      have hs : splitn2 ':' ('I' :: 'N' :: 'F' :: 'O' :: ':' :: info) = [['I', 'N', 'F', 'O'], info] :=
        splitn2_append ['I', 'N', 'F', 'O'] info (by decide)
      rw [e]
      simp only [Response.from_str, hs]
      simp
    | Error err =>
      have e : Response.render (.Error err) = 'E' :: 'R' :: 'R' :: 'O' :: 'R' :: ':' :: err := rfl
      have hs : splitn2 ':' ('E' :: 'R' :: 'R' :: 'O' :: 'R' :: ':' :: err) =
          [['E', 'R', 'R', 'O', 'R'], err] :=
        splitn2_append ['E', 'R', 'R', 'O', 'R'] err (by decide)
      rw [e]
      simp only [Response.from_str, hs]
      simp

theorem grammar_roundtrip_witness :
    Command.from_str (Command.render .GetStatus) = .ok .GetStatus ∧
    wfNoColon (.Status true 100) = true ∧
    Response.from_str (Response.render (.Status true 100)) = .ok (.Status true 100) ∧
    wfNoColon (.Ok "hi".toList) = true ∧
    Response.from_str (Response.render (.Ok "hi".toList)) = .ok (.Ok "hi".toList) :=
  ⟨grammar_roundtrip.1 .GetStatus, by decide,
    grammar_roundtrip.2 (.Status true 100) (by decide), by decide,
    grammar_roundtrip.2 (.Ok "hi".toList) (by decide)⟩

/-- C6: for every input of the form STATUS: followed by a remainder,
Response parsing splits the remainder on every colon; the resulting is_on
field is true exactly when the first token equals ON (anything else gives
is_on false), and the power field is the second token parsed as u32, the
parse failing with ParseError when that token is absent (Missing power
value) or does not parse (Invalid power value). -/
theorem status_parse_spec :
    ∀ rem : List Char,
      ((splitAll ':' rem).get? 1 = none →
        Response.from_str ("STATUS:".toList ++ rem) =
          .error (.ParseError "Missing power value")) ∧
      (∀ t, (splitAll ':' rem).get? 1 = some t → parseU32 t = none →
        Response.from_str ("STATUS:".toList ++ rem) =
          .error (.ParseError "Invalid power value")) ∧
      (∀ t p, (splitAll ':' rem).get? 1 = some t → parseU32 t = some p →
        Response.from_str ("STATUS:".toList ++ rem) =
          .ok (.Status (decide ((splitAll ':' rem).head? = some "ON".toList)) p)) := by
  intro rem
  have e : "STATUS:".toList ++ rem = 'S' :: 'T' :: 'A' :: 'T' :: 'U' :: 'S' :: ':' :: rem := rfl
  have hs : splitn2 ':' ('S' :: 'T' :: 'A' :: 'T' :: 'U' :: 'S' :: ':' :: rem) =
      [['S', 'T', 'A', 'T', 'U', 'S'], rem] :=
    splitn2_append ['S', 'T', 'A', 'T', 'U', 'S'] rem (by decide)
  have hbody : Response.from_str ("STATUS:".toList ++ rem) =
      (match splitAll ':' rem with
       | [] => .error (.ParseError "Missing status state")
       | st :: more =>
         match more.head? with
         | none => .error (.ParseError "Missing power value")
         | some ptok =>
           match parseU32 ptok with
           | none => .error (.ParseError "Invalid power value")
           | some p => .ok (.Status (decide (st = "ON".toList)) p)) := by
    rw [e]
    simp only [Response.from_str, hs]
    simp
  cases hsp : splitAll ':' rem with
  | nil => exact absurd hsp (splitAll_ne_nil rem)
  | cons st more =>
    rw [hsp] at hbody
    cases more with
    | nil =>
      refine ⟨fun _ => ?_, fun t ht => ?_, fun t p ht => ?_⟩
      · simpa using hbody
      · simp at ht
      · simp at ht
    | cons t0 more2 =>
      refine ⟨fun hn => ?_, fun t ht hp => ?_, fun t p ht hp => ?_⟩
      · simp at hn
      · simp at ht
        subst ht
        simpa [hp] using hbody
      · simp at ht
        subst ht
        simpa [hp] using hbody

theorem status_parse_spec_witness :
    Response.from_str ("STATUS:".toList ++ "ON:100".toList) = .ok (.Status true 100) ∧
    Response.from_str ("STATUS:".toList ++ "ON".toList) =
      .error (.ParseError "Missing power value") ∧
    Response.from_str ("STATUS:".toList ++ "ON:x".toList) =
      .error (.ParseError "Invalid power value") :=
  ⟨(status_parse_spec "ON:100".toList).2.2 "100".toList 100 (by decide) (by decide),
    (status_parse_spec "ON".toList).1 (by decide),
    (status_parse_spec "ON:x".toList).2.1 "x".toList (by decide) (by decide)⟩

/-- C7: for every successfully parsed command arriving on the connection,
the handler performs exactly the mapped device call and builds the mapped
response before continuing with the rest of the connection: TurnOn calls
turn_on and answers Ok Socket turned on; TurnOff calls turn_off and
answers Ok Socket turned off; GetStatus answers Status of is_on and
get_power; GetInfo answers Info of description.  Exclusive access appears
as the sequential threading of the device state through the handler. -/
theorem handler_dispatch :
    ∀ (σ : Type) (ops : DeviceOps σ) (dev : σ) (chunk : List Nat)
      (rest : List (List Nat)) (c : Command),
      chunk ≠ [] → Command.from_str (utf8Lossy chunk) = .ok c →
      handleClient ops dev (chunk :: rest) =
        (match c with
         | .TurnOn =>
             (utf8EncodeStr (Response.render (.Ok "Socket turned on".toList)) ++
               (handleClient ops (ops.turn_on dev) rest).1,
              (handleClient ops (ops.turn_on dev) rest).2)
         | .TurnOff =>
             (utf8EncodeStr (Response.render (.Ok "Socket turned off".toList)) ++
               (handleClient ops (ops.turn_off dev) rest).1,
              (handleClient ops (ops.turn_off dev) rest).2)
         | .GetStatus =>
             (utf8EncodeStr (Response.render (.Status (ops.is_on dev) (ops.get_power dev))) ++
               (handleClient ops dev rest).1,
              (handleClient ops dev rest).2)
         | .GetInfo =>
             (utf8EncodeStr (Response.render (.Info (ops.description dev))) ++
               (handleClient ops dev rest).1,
              (handleClient ops dev rest).2)) := by
  intro σ ops dev chunk rest c hne hp
  have hlen : ¬ chunk.length = 0 := by
    simpa [List.length_eq_zero] using hne
  cases c <;> simp [handleClient, hlen, hp]

/-- C8: for every received message whose text fails to parse as a Command,
the handler replies with an Error response rendered as ERROR:Invalid
command: followed by the rejected text, and keeps serving the rest of the
connection with the device state unchanged. -/
theorem handler_error_recovery :
    ∀ (σ : Type) (ops : DeviceOps σ) (dev : σ) (chunk : List Nat)
      (rest : List (List Nat)) (raw : List Char),
      chunk ≠ [] → Command.from_str (utf8Lossy chunk) = .error (.InvalidCommand raw) →
      handleClient ops dev (chunk :: rest) =
        (utf8EncodeStr ("ERROR:".toList ++ "Invalid command: ".toList ++ raw) ++
          (handleClient ops dev rest).1,
         (handleClient ops dev rest).2) := by
  intro σ ops dev chunk rest raw hne hp
  have hlen : ¬ chunk.length = 0 := by
    simpa [List.length_eq_zero] using hne
  simp [handleClient, hlen, hp, Response.render, errDisplay, List.append_assoc]

theorem superviseAux_spec :
    ∀ (evs : List (Bool × AcceptEv)) (spawned : List Nat),
      (superviseAux spawned evs).2 = (superviseAux spawned evs).1 ∧
      (superviseAux spawned evs).1 =
        spawned ++ acceptedOf (evs.takeWhile (fun p => p.1)) := by
  intro evs
  induction evs with
  | nil => intro spawned; simp [superviseAux, acceptedOf]
  | cons pe rest ih =>
    intro spawned
    obtain ⟨flag, ev⟩ := pe
    cases flag
    · simp [superviseAux, acceptedOf, List.takeWhile]
    · cases ev <;>
        simp [superviseAux, List.takeWhile, acceptedOf, ih, List.append_assoc]

/-- C9: in every trace of the supervisor loop, the handlers spawned are
exactly those accepted strictly before the first false shutdown-flag
observation (no connection is accepted afterwards), and the set of joined
handlers equals the set of spawned handlers, the joins happening after the
loop exits and before the function returns. -/
theorem supervisor_drain (evs : List (Bool × AcceptEv)) :
    (supervise evs).2 = (supervise evs).1 ∧
    (supervise evs).1 = acceptedOf (evs.takeWhile (fun p => p.1)) := by
  have h := superviseAux_spec evs []
  simpa [supervise] using h

theorem handler_dispatch_witness :
    handleClient demoOps false [[79, 78]] =
      (utf8EncodeStr (Response.render (.Ok "Socket turned on".toList)) ++
        (handleClient demoOps (demoOps.turn_on false) []).1,
       (handleClient demoOps (demoOps.turn_on false) []).2) :=
  handler_dispatch Bool demoOps false [79, 78] [] .TurnOn (by decide) (by decide)

theorem handler_error_recovery_witness :
    handleClient demoOps false [[66, 79, 71, 85, 83], [79, 78]] =
      (utf8EncodeStr ("ERROR:".toList ++ "Invalid command: ".toList ++ "BOGUS".toList) ++
        (handleClient demoOps false [[79, 78]]).1,
       (handleClient demoOps false [[79, 78]]).2) :=
  handler_error_recovery Bool demoOps false [66, 79, 71, 85, 83] [[79, 78]] "BOGUS".toList
    (by decide) (by decide)
